import Mathlib

/-!
Verification of the `safejaq` sandboxed JAQ-filter evaluator
(`src/safejaq/src/lib.rs`).

The development shallowly embeds:

* the JSON wire layer (requests and results travel as JSON text over the
  child's standard pipes; the Rust code delegates this to `serde_json`,
  which is external to the repository, so the JSON text encoding is
  modelled from the spec's wire-protocol section: one UTF-8 JSON value,
  objects/arrays/strings/integers/booleans/null, with `serde_json`'s
  string-escaping rules; numbers are modelled as unbounded integers),
* the filter engine adapter `evaluate` together with a model of the
  out-of-scope jaq compile-and-run capability,
* the child entrypoint `evaluator_main` and its resource-limit setup
  `set_limits`,
* the supervisor `SafeJaq::evaluate` as a function of the outcomes of its
  I/O race and of the child's exit, which is where all its branching
  lives.

Bytes are modelled as `List Char` (the protocol text is UTF-8 JSON and no
claim depends on byte-level encoding).
-/

/-- JSON values as exchanged on the supervisor/child pipes. Models
`serde_json::Value`; numbers are modelled as unbounded integers (the spec's
claims do not involve floating-point payload values), and objects are
field-name/value association lists in serialization order. -/
inductive Json where
  | null : Json
  | bool (b : Bool) : Json
  | num (n : Int) : Json
  | str (s : String) : Json
  | arr (elems : List Json) : Json
  | obj (fields : List (String × Json)) : Json

/-- The opening-brace character, written via its code point. -/
def lbrace : Char := '\x7b'

/-- The closing-brace character, written via its code point. -/
def rbrace : Char := '\x7d'

/-- JSON insignificant whitespace. -/
def isWsChar (c : Char) : Bool :=
  c = ' ' || c = '\t' || c = '\n' || c = '\r'

/-- ASCII decimal digit test. -/
def isDigitCh (c : Char) : Bool :=
  '0' ≤ c && c ≤ '9'

/-- Numeric value of an ASCII digit character. -/
def digitVal (c : Char) : Nat := c.toNat - 48

/-- ASCII digit character of a digit value. -/
def digitChar (d : Nat) : Char := Char.ofNat (48 + d)

/-- Hex digit character (lowercase), as used by JSON `\u00XX` escapes. -/
def hexChar (d : Nat) : Char :=
  if d < 10 then Char.ofNat (48 + d) else Char.ofNat (87 + d)

/-- Numeric value of a hex digit character, if it is one. -/
def hexVal (c : Char) : Option Nat :=
  if '0' ≤ c && c ≤ '9' then some (c.toNat - 48)
  else if 'a' ≤ c && c ≤ 'f' then some (c.toNat - 87)
  else if 'A' ≤ c && c ≤ 'F' then some (c.toNat - 55)
  else none

/-- Decimal rendering of a positive natural, most significant digit first;
fuel-structural so that it evaluates inside the kernel. -/
def natCharsAux : Nat → Nat → List Char
  | 0, _ => []
  | fuel + 1, n => if n = 0 then [] else natCharsAux fuel (n / 10) ++ [digitChar (n % 10)]

/-- Decimal rendering of a natural number. -/
def natChars (n : Nat) : List Char :=
  if n = 0 then ['0'] else natCharsAux n n

/-- Decimal rendering of an integer, as `serde_json` prints `i64`/`u64`. -/
def intChars (i : Int) : List Char :=
  if i < 0 then '-' :: natChars i.natAbs else natChars i.toNat

/-- One character of a JSON string body, escaped exactly as `serde_json`
escapes it: quote and backslash get two-character escapes, the five named
control characters get theirs, all other control characters become
`\u00XX`, and everything else is passed through. -/
def escChar (c : Char) : List Char :=
  if c = '"' then ['\\', '"']
  else if c = '\\' then ['\\', '\\']
  else if c.toNat = 8 then ['\\', 'b']
  else if c.toNat = 9 then ['\\', 't']
  else if c.toNat = 10 then ['\\', 'n']
  else if c.toNat = 12 then ['\\', 'f']
  else if c.toNat = 13 then ['\\', 'r']
  else if c.toNat < 32 then
    ['\\', 'u', '0', '0', hexChar (c.toNat / 16), hexChar (c.toNat % 16)]
  else [c]

/-- Escaped rendering of a JSON string body. -/
def escList : List Char → List Char
  | [] => []
  | c :: t => escChar c ++ escList t

mutual

/-- Compact JSON rendering of a value, as `serde_json::to_string` /
`serde_json::to_writer` produce it (no insignificant whitespace). -/
def serJson : Json → List Char
  | .null => "null".data
  | .bool true => "true".data
  | .bool false => "false".data
  | .num i => intChars i
  | .str s => '"' :: (escList s.data ++ ['"'])
  | .arr xs => '[' :: (serArr xs ++ [']'])
  | .obj fs => lbrace :: (serObj fs ++ [rbrace])

/-- Comma-separated rendering of array elements. -/
def serArr : List Json → List Char
  | [] => []
  | [x] => serJson x
  | x :: y :: t => serJson x ++ ',' :: serArr (y :: t)

/-- Comma-separated rendering of object members. -/
def serObj : List (String × Json) → List Char
  | [] => []
  | [(k, v)] => '"' :: (escList k.data ++ '"' :: ':' :: serJson v)
  | (k, v) :: f :: t =>
    ('"' :: (escList k.data ++ '"' :: ':' :: serJson v)) ++ ',' :: serObj (f :: t)

end

/-- Skips insignificant JSON whitespace. -/
def skipWs : List Char → List Char
  | [] => []
  | c :: l => if isWsChar c then skipWs l else c :: l

/-- Splits a maximal run of leading decimal digits off the input,
returning their values most significant first. -/
def takeDigits : List Char → List Nat × List Char
  | [] => ([], [])
  | c :: l =>
    if isDigitCh c then
      let p := takeDigits l
      (digitVal c :: p.1, p.2)
    else ([], c :: l)

/-- Value of a digit-value list read most significant first. -/
def digitsToNat (ds : List Nat) : Nat :=
  ds.foldl (fun a d => 10 * a + d) 0

/-- Parses a nonempty run of decimal digits into a natural number. -/
def parseNatNum (l : List Char) : Option (Nat × List Char) :=
  let p := takeDigits l
  if p.1.isEmpty then none else some (digitsToNat p.1, p.2)

/-- Resolution of a two-character string escape body. -/
def unescChar (e : Char) : Option Char :=
  if e = '"' then some '"'
  else if e = '\\' then some '\\'
  else if e = '/' then some '/'
  else if e = 'b' then some (Char.ofNat 8)
  else if e = 't' then some (Char.ofNat 9)
  else if e = 'n' then some (Char.ofNat 10)
  else if e = 'f' then some (Char.ofNat 12)
  else if e = 'r' then some (Char.ofNat 13)
  else none

/-- Parses the body of a JSON string after the opening quote, consuming
the closing quote, with `serde_json`'s lexical rules: the standard
two-character escapes, `\uXXXX` escapes, a raw control character is an
error, every other raw character stands for itself. -/
def parseStrBody : List Char → Option (List Char × List Char)
  | [] => none
  | c :: rest =>
    if c = '"' then some ([], rest)
    else if c = '\\' then
      match rest with
      | [] => none
      | e :: rest1 =>
        if e = 'u' then
          match rest1 with
          | h1 :: h2 :: h3 :: h4 :: rest2 =>
            match hexVal h1, hexVal h2, hexVal h3, hexVal h4 with
            | some a, some b, some c2, some d =>
              (parseStrBody rest2).map fun (p : List Char × List Char) =>
                (Char.ofNat (4096 * a + 256 * b + 16 * c2 + d) :: p.1, p.2)
            | _, _, _, _ => none
          | _ => none
        else
          (unescChar e).bind fun c2 =>
            (parseStrBody rest1).map fun (p : List Char × List Char) => (c2 :: p.1, p.2)
    else if c.toNat < 32 then none
    else (parseStrBody rest).map fun (p : List Char × List Char) => (c :: p.1, p.2)

mutual

/-- Parses one JSON value (fuel-structural recursive descent modelling
`serde_json`'s parser on the grammar the claims need). Returns the value
and the unconsumed suffix. -/
def parseVal : Nat → List Char → Option (Json × List Char)
  | 0, _ => none
  | fuel + 1, l =>
    match skipWs l with
    | [] => none
    | c :: r =>
      if c = 'n' then
        match r with
        | 'u' :: 'l' :: 'l' :: r2 => some (.null, r2)
        | _ => none
      else if c = 't' then
        match r with
        | 'r' :: 'u' :: 'e' :: r2 => some (.bool true, r2)
        | _ => none
      else if c = 'f' then
        match r with
        | 'a' :: 'l' :: 's' :: 'e' :: r2 => some (.bool false, r2)
        | _ => none
      else if c = '"' then
        (parseStrBody r).map fun p => (.str (String.mk p.1), p.2)
      else if c = '[' then
        match skipWs r with
        | [] => none
        | c1 :: r1 =>
          if c1 = ']' then some (.arr [], r1)
          else (parseElems fuel (c1 :: r1)).map fun p => (.arr p.1, p.2)
      else if c = lbrace then
        match skipWs r with
        | [] => none
        | c2 :: r2 =>
          if c2 = rbrace then some (.obj [], r2)
          else (parseMembers fuel (c2 :: r2)).map fun p => (.obj p.1, p.2)
      else if c = '-' then
        (parseNatNum r).map fun p => (.num (-(p.1 : Int)), p.2)
      else if isDigitCh c then
        (parseNatNum (c :: r)).map fun p => (.num ((p.1 : Nat) : Int), p.2)
      else none

/-- Parses the elements of a nonempty JSON array, consuming the closing
bracket. -/
def parseElems : Nat → List Char → Option (List Json × List Char)
  | 0, _ => none
  | fuel + 1, l =>
    match parseVal fuel l with
    | none => none
    | some (v, l1) =>
      match skipWs l1 with
      | [] => none
      | c :: l2 =>
        if c = ',' then
          match parseElems fuel l2 with
          | some (vs, l3) => some (v :: vs, l3)
          | none => none
        else if c = ']' then some ([v], l2)
        else none

/-- Parses the members of a nonempty JSON object, consuming the closing
brace. -/
def parseMembers : Nat → List Char → Option (List (String × Json) × List Char)
  | 0, _ => none
  | fuel + 1, l =>
    match skipWs l with
    | [] => none
    | c :: r =>
      if c = '"' then
        match parseStrBody r with
        | none => none
        | some (k, l1) =>
          match skipWs l1 with
          | [] => none
          | c2 :: l2 =>
            if c2 = ':' then
              match parseVal fuel l2 with
              | none => none
              | some (v, l3) =>
                match skipWs l3 with
                | [] => none
                | c3 :: l4 =>
                  if c3 = ',' then
                    match parseMembers fuel l4 with
                    | some (fs, l5) => some ((String.mk k, v) :: fs, l5)
                    | none => none
                  else if c3 = rbrace then some ([(String.mk k, v)], l4)
                  else none
            else none
      else none

end

/-- Parses one complete JSON document: one value and nothing but trailing
whitespace after it, as `serde_json::from_slice` requires. -/
def parseJson (l : List Char) : Option Json :=
  match parseVal (l.length + 1) l with
  | some (v, rest) => if skipWs rest = [] then some v else none
  | none => none

mutual

/-- Fuel bound for parsing one serialized value. -/
def jsize : Json → Nat
  | .null => 1
  | .bool _ => 1
  | .num _ => 1
  | .str _ => 1
  | .arr xs => 1 + esize xs
  | .obj fs => 1 + msize fs

/-- Fuel bound for parsing serialized array elements. -/
def esize : List Json → Nat
  | [] => 0
  | v :: t => 1 + jsize v + esize t

/-- Fuel bound for parsing serialized object members. -/
def msize : List (String × Json) → Nat
  | [] => 0
  | (_, v) :: t => 1 + jsize v + msize t

end

theorem jsize_pos (v : Json) : 1 ≤ jsize v := by
  cases v <;> simp [jsize]

theorem skipWs_cons {c : Char} (l : List Char) (h : isWsChar c = false) :
    skipWs (c :: l) = c :: l := by
  simp [skipWs, h]

theorem takeDigits_cons_digit {c : Char} (l : List Char) (h : isDigitCh c = true) :
    takeDigits (c :: l) = (digitVal c :: (takeDigits l).1, (takeDigits l).2) := by
  simp [takeDigits, h]

theorem takeDigits_cons_notdigit {c : Char} (l : List Char) (h : isDigitCh c = false) :
    takeDigits (c :: l) = ([], c :: l) := by
  simp [takeDigits, h]

/-- The suffixes that follow a serialized value in context: end of input or
a separator/closer character. Such a suffix never continues a digit run. -/
def isSep : List Char → Bool
  | [] => true
  | c :: _ => c = ',' || c = ']' || c = rbrace

theorem takeDigits_of_isSep {rest : List Char} (h : isSep rest = true) :
    takeDigits rest = ([], rest) := by
  cases rest with
  | nil => rfl
  | cons c t =>
    have hd : isDigitCh c = false := by
      simp only [isSep, Bool.or_eq_true, decide_eq_true_eq] at h
      rcases h with (h | h) | h <;> subst h <;> rfl
    exact takeDigits_cons_notdigit t hd

theorem digitChar_isDigit {d : Nat} (h : d < 10) : isDigitCh (digitChar d) = true := by
  interval_cases d <;> rfl

theorem digitChar_val {d : Nat} (h : d < 10) : digitVal (digitChar d) = d := by
  interval_cases d <;> rfl

theorem takeDigits_map (ds : List Nat) (rest : List Char) (hds : ∀ d ∈ ds, d < 10)
    (hrest : takeDigits rest = ([], rest)) :
    takeDigits (ds.map digitChar ++ rest) = (ds, rest) := by
  induction ds with
  | nil => simpa using hrest
  | cons d t ih =>
    have hd : d < 10 := hds d (by simp)
    have ht : ∀ x ∈ t, x < 10 := fun x hx => hds x (by simp [hx])
    simp only [List.map_cons, List.cons_append,
      takeDigits_cons_digit _ (digitChar_isDigit hd), ih ht, digitChar_val hd]

theorem digitsToNat_reverse_digits (n : Nat) :
    digitsToNat ((Nat.digits 10 n).reverse) = n := by
  have hfold : ∀ l : List Nat, l.foldr (fun d a => 10 * a + d) 0 = Nat.ofDigits 10 l := by
    intro l
    induction l with
    | nil => simp [Nat.ofDigits]
    | cons d t ih =>
      simp only [List.foldr_cons, ih, Nat.ofDigits_cons]
      ring
  have := List.foldl_reverse (l := Nat.digits 10 n) (f := fun a d => 10 * a + d) (b := 0)
  unfold digitsToNat
  rw [this, hfold, Nat.ofDigits_digits]

theorem natCharsAux_eq (fuel : Nat) : ∀ n, n ≤ fuel →
    natCharsAux fuel n = ((Nat.digits 10 n).reverse).map digitChar := by
  induction fuel with
  | zero =>
    intro n hn
    interval_cases n
    simp [natCharsAux, Nat.digits_zero]
  | succ fuel ih =>
    intro n hn
    by_cases h0 : n = 0
    · subst h0
      simp [natCharsAux, Nat.digits_zero]
    · have hp : 0 < n := Nat.pos_of_ne_zero h0
      have hdiv : n / 10 ≤ fuel := by
        have := Nat.div_lt_self hp (by norm_num : 1 < 10)
        omega
      rw [natCharsAux, if_neg h0, ih _ hdiv, Nat.digits_def' (by norm_num : 1 < 10) hp]
      simp

theorem parseNatNum_natChars (n : Nat) (rest : List Char)
    (hrest : takeDigits rest = ([], rest)) :
    parseNatNum (natChars n ++ rest) = some (n, rest) := by
  by_cases h0 : n = 0
  · subst h0
    have h1 : natChars 0 ++ rest = '0' :: rest := rfl
    rw [h1]
    simp only [parseNatNum, takeDigits_cons_digit rest (show isDigitCh '0' = true from rfl),
      hrest]
    rfl
  · have hp : 0 < n := Nat.pos_of_ne_zero h0
    have hds : ∀ d ∈ (Nat.digits 10 n).reverse, d < 10 := by
      intro d hd
      exact Nat.digits_lt_base (by norm_num) (List.mem_reverse.mp hd)
    have hne : (Nat.digits 10 n).reverse ≠ [] := by
      simp [Nat.digits_ne_nil_iff_ne_zero, h0]
    rw [natChars, if_neg h0, natCharsAux_eq n n (le_refl n),
      parseNatNum]
    rw [takeDigits_map _ _ hds hrest]
    simp only [List.isEmpty_eq_true, hne, if_neg]
    rw [digitsToNat_reverse_digits]
    simp [hne]

theorem parseStrBody_u00 (c2 d : Nat) (hc : c2 < 2) (hd : d < 16) (L : List Char) :
    parseStrBody ('\\' :: 'u' :: '0' :: '0' :: hexChar c2 :: hexChar d :: L)
      = (parseStrBody L).map fun (p : List Char × List Char) =>
          (Char.ofNat (16 * c2 + d) :: p.1, p.2) := by
  interval_cases c2 <;> interval_cases d <;> rfl

theorem escChar_step (c : Char) (L : List Char) :
    parseStrBody (escChar c ++ L)
      = (parseStrBody L).map fun (p : List Char × List Char) => (c :: p.1, p.2) := by
  by_cases h1 : c = '"'
  · subst h1
    rw [show escChar '"' ++ L = '\\' :: '"' :: L from rfl, parseStrBody.eq_def]
    rfl
  by_cases h2 : c = '\\'
  · subst h2
    rw [show escChar '\\' ++ L = '\\' :: '\\' :: L from rfl, parseStrBody.eq_def]
    rfl
  by_cases h3 : c.toNat = 8
  · have hc : (Char.ofNat 8 : Char) = c := by rw [← h3, Char.ofNat_toNat]
    have e1 : parseStrBody ('\\' :: 'b' :: L)
        = (parseStrBody L).map fun (p : List Char × List Char) =>
            (Char.ofNat 8 :: p.1, p.2) := by
      rw [parseStrBody.eq_def]; rfl
    simp only [escChar, if_neg h1, if_neg h2, if_pos h3]
    rw [show (['\\', 'b'] : List Char) ++ L = '\\' :: 'b' :: L from rfl, e1, hc]
  by_cases h4 : c.toNat = 9
  · have hc : (Char.ofNat 9 : Char) = c := by rw [← h4, Char.ofNat_toNat]
    have e1 : parseStrBody ('\\' :: 't' :: L)
        = (parseStrBody L).map fun (p : List Char × List Char) =>
            (Char.ofNat 9 :: p.1, p.2) := by
      rw [parseStrBody.eq_def]; rfl
    simp only [escChar, if_neg h1, if_neg h2, if_neg h3, if_pos h4]
    rw [show (['\\', 't'] : List Char) ++ L = '\\' :: 't' :: L from rfl, e1, hc]
  by_cases h5 : c.toNat = 10
  · have hc : (Char.ofNat 10 : Char) = c := by rw [← h5, Char.ofNat_toNat]
    have e1 : parseStrBody ('\\' :: 'n' :: L)
        = (parseStrBody L).map fun (p : List Char × List Char) =>
            (Char.ofNat 10 :: p.1, p.2) := by
      rw [parseStrBody.eq_def]; rfl
    simp only [escChar, if_neg h1, if_neg h2, if_neg h3, if_neg h4, if_pos h5]
    rw [show (['\\', 'n'] : List Char) ++ L = '\\' :: 'n' :: L from rfl, e1, hc]
  by_cases h6 : c.toNat = 12
  · have hc : (Char.ofNat 12 : Char) = c := by rw [← h6, Char.ofNat_toNat]
    have e1 : parseStrBody ('\\' :: 'f' :: L)
        = (parseStrBody L).map fun (p : List Char × List Char) =>
            (Char.ofNat 12 :: p.1, p.2) := by
      rw [parseStrBody.eq_def]; rfl
    simp only [escChar, if_neg h1, if_neg h2, if_neg h3, if_neg h4, if_neg h5, if_pos h6]
    rw [show (['\\', 'f'] : List Char) ++ L = '\\' :: 'f' :: L from rfl, e1, hc]
  by_cases h7 : c.toNat = 13
  · have hc : (Char.ofNat 13 : Char) = c := by rw [← h7, Char.ofNat_toNat]
    have e1 : parseStrBody ('\\' :: 'r' :: L)
        = (parseStrBody L).map fun (p : List Char × List Char) =>
            (Char.ofNat 13 :: p.1, p.2) := by
      rw [parseStrBody.eq_def]; rfl
    simp only [escChar, if_neg h1, if_neg h2, if_neg h3, if_neg h4, if_neg h5, if_neg h6,
      if_pos h7]
    rw [show (['\\', 'r'] : List Char) ++ L = '\\' :: 'r' :: L from rfl, e1, hc]
  by_cases h8 : c.toNat < 32
  · simp only [escChar, if_neg h1, if_neg h2, if_neg h3, if_neg h4, if_neg h5, if_neg h6,
      if_neg h7, if_pos h8]
    have e1 : (['\\', 'u', '0', '0', hexChar (c.toNat / 16), hexChar (c.toNat % 16)] :
        List Char) ++ L
        = '\\' :: 'u' :: '0' :: '0' :: hexChar (c.toNat / 16) :: hexChar (c.toNat % 16) :: L :=
      rfl
    rw [e1, parseStrBody_u00 _ _ (by omega) (Nat.mod_lt _ (by norm_num)) L]
    simp only [Nat.div_add_mod, Char.ofNat_toNat]
  · simp only [escChar, if_neg h1, if_neg h2, if_neg h3, if_neg h4, if_neg h5, if_neg h6,
      if_neg h7, if_neg h8]
    have e1 : ([c] : List Char) ++ L = c :: L := rfl
    rw [e1, parseStrBody.eq_def]
    simp only [if_neg h1, if_neg h2, if_neg h8]

theorem parseStrBody_escList (s : List Char) (rest : List Char) :
    parseStrBody (escList s ++ '"' :: rest) = some (s, rest) := by
  induction s with
  | nil =>
    rw [show escList [] ++ '"' :: rest = '"' :: rest from rfl, parseStrBody.eq_def]
    rfl
  | cons c t ih =>
    rw [escList, List.append_assoc, escChar_step, ih]
    rfl

theorem parseVal_null {l r : List Char} (fuel : Nat)
    (h : skipWs l = 'n' :: 'u' :: 'l' :: 'l' :: r) :
    parseVal (fuel + 1) l = some (.null, r) := by
  simp only [parseVal.eq_def, h] <;> rfl

theorem parseVal_true {l r : List Char} (fuel : Nat)
    (h : skipWs l = 't' :: 'r' :: 'u' :: 'e' :: r) :
    parseVal (fuel + 1) l = some (.bool true, r) := by
  simp only [parseVal.eq_def, h] <;> rfl

theorem parseVal_false {l r : List Char} (fuel : Nat)
    (h : skipWs l = 'f' :: 'a' :: 'l' :: 's' :: 'e' :: r) :
    parseVal (fuel + 1) l = some (.bool false, r) := by
  simp only [parseVal.eq_def, h] <;> rfl

theorem parseVal_quote {l r : List Char} (fuel : Nat) (h : skipWs l = '"' :: r) :
    parseVal (fuel + 1) l
      = (parseStrBody r).map fun p => (Json.str (String.mk p.1), p.2) := by
  simp only [parseVal.eq_def, h] <;> rfl

theorem parseVal_arrNil {l r r2 : List Char} (fuel : Nat) (h : skipWs l = '[' :: r)
    (h2 : skipWs r = ']' :: r2) :
    parseVal (fuel + 1) l = some (.arr [], r2) := by
  simp only [parseVal.eq_def, h, h2] <;> rfl

theorem parseVal_arrCons {l r r1 : List Char} {c1 : Char} (fuel : Nat)
    (h : skipWs l = '[' :: r) (h2 : skipWs r = c1 :: r1) (hne : ¬c1 = ']') :
    parseVal (fuel + 1) l
      = (parseElems fuel (c1 :: r1)).map fun p => (Json.arr p.1, p.2) := by
  simp only [parseVal.eq_def, h, h2, if_neg hne] <;> rfl

theorem parseVal_objNil {l r r2 : List Char} (fuel : Nat) (h : skipWs l = lbrace :: r)
    (h2 : skipWs r = rbrace :: r2) :
    parseVal (fuel + 1) l = some (.obj [], r2) := by
  simp only [parseVal.eq_def, h, h2] <;> rfl

theorem parseVal_objCons {l r r2 : List Char} {c2 : Char} (fuel : Nat)
    (h : skipWs l = lbrace :: r) (h2 : skipWs r = c2 :: r2) (hne : ¬c2 = rbrace) :
    parseVal (fuel + 1) l
      = (parseMembers fuel (c2 :: r2)).map fun p => (Json.obj p.1, p.2) := by
  simp only [parseVal.eq_def, h, h2, if_neg hne] <;> rfl

theorem parseVal_neg {l r : List Char} (fuel : Nat) (h : skipWs l = '-' :: r) :
    parseVal (fuel + 1) l
      = (parseNatNum r).map fun p => (Json.num (-(p.1 : Int)), p.2) := by
  simp only [parseVal.eq_def, h] <;> rfl

theorem parseVal_digit {l r : List Char} {d : Nat} (fuel : Nat) (hd : d < 10)
    (h : skipWs l = digitChar d :: r) :
    parseVal (fuel + 1) l
      = (parseNatNum (digitChar d :: r)).map fun p => (Json.num ((p.1 : Nat) : Int), p.2) := by
  interval_cases d <;> simp only [parseVal.eq_def, h] <;> rfl

theorem parseElems_last {l l1 l2 : List Char} {v : Json} (fuel : Nat)
    (hv : parseVal fuel l = some (v, l1)) (hsep : skipWs l1 = ']' :: l2) :
    parseElems (fuel + 1) l = some ([v], l2) := by
  rw [parseElems.eq_2, hv]
  simp only [hsep] <;> rfl

theorem parseElems_cons {l l1 l2 l3 : List Char} {v : Json} {vs : List Json} (fuel : Nat)
    (hv : parseVal fuel l = some (v, l1)) (hsep : skipWs l1 = ',' :: l2)
    (hrec : parseElems fuel l2 = some (vs, l3)) :
    parseElems (fuel + 1) l = some (v :: vs, l3) := by
  rw [parseElems.eq_2, hv]
  simp only [hsep, hrec] <;> rfl

theorem parseMembers_last {l r l1 l2 l3 l4 : List Char} {k : List Char} {v : Json}
    (fuel : Nat) (h0 : skipWs l = '"' :: r) (hk : parseStrBody r = some (k, l1))
    (hc : skipWs l1 = ':' :: l2) (hv : parseVal fuel l2 = some (v, l3))
    (hsep : skipWs l3 = rbrace :: l4) :
    parseMembers (fuel + 1) l = some ([(String.mk k, v)], l4) := by
  rw [parseMembers.eq_2]
  simp only [h0, hk, hc, hv, hsep] <;> rfl

theorem parseMembers_cons {l r l1 l2 l3 l4 l5 : List Char} {k : List Char} {v : Json}
    {fs : List (String × Json)} (fuel : Nat) (h0 : skipWs l = '"' :: r)
    (hk : parseStrBody r = some (k, l1)) (hc : skipWs l1 = ':' :: l2)
    (hv : parseVal fuel l2 = some (v, l3)) (hsep : skipWs l3 = ',' :: l4)
    (hrec : parseMembers fuel l4 = some (fs, l5)) :
    parseMembers (fuel + 1) l = some ((String.mk k, v) :: fs, l5) := by
  rw [parseMembers.eq_2]
  simp only [h0, hk, hc, hv, hsep, hrec] <;> rfl

theorem stringMk_data (s : String) : String.mk s.data = s := rfl

theorem digitChar_not_ws {d : Nat} (h : d < 10) : isWsChar (digitChar d) = false := by
  interval_cases d <;> rfl

theorem digitChar_ne_rbracket {d : Nat} (h : d < 10) : ¬digitChar d = ']' := by
  interval_cases d <;> decide

theorem natChars_head (n : Nat) : ∃ d t, natChars n = digitChar d :: t ∧ d < 10 := by
  by_cases h0 : n = 0
  · exact ⟨0, [], by rw [h0]; rfl, by norm_num⟩
  · have hne : (Nat.digits 10 n).reverse ≠ [] := by
      simp [Nat.digits_ne_nil_iff_ne_zero, h0]
    obtain ⟨d, ds', hds⟩ := List.exists_cons_of_ne_nil hne
    refine ⟨d, ds'.map digitChar, ?_, ?_⟩
    · rw [natChars, if_neg h0, natCharsAux_eq n n (le_refl n), hds, List.map_cons]
    · exact Nat.digits_lt_base (by norm_num) (List.mem_reverse.mp (by rw [hds]; simp))

theorem serJson_head (v : Json) :
    ∃ c l', serJson v = c :: l' ∧ isWsChar c = false ∧ ¬c = ']' := by
  cases v with
  | null => exact ⟨'n', ['u', 'l', 'l'], rfl, rfl, by decide⟩
  | bool b => cases b with
    | true => exact ⟨'t', ['r', 'u', 'e'], rfl, rfl, by decide⟩
    | false => exact ⟨'f', ['a', 'l', 's', 'e'], rfl, rfl, by decide⟩
  | num i =>
    by_cases hneg : i < 0
    · exact ⟨'-', natChars i.natAbs, by rw [serJson, intChars, if_pos hneg], rfl, by decide⟩
    · obtain ⟨d, t, ht, hd⟩ := natChars_head i.toNat
      exact ⟨digitChar d, t, by rw [serJson, intChars, if_neg hneg, ht],
        digitChar_not_ws hd, digitChar_ne_rbracket hd⟩
  | str s => exact ⟨'"', escList s.data ++ ['"'], rfl, rfl, by decide⟩
  | arr xs => exact ⟨'[', serArr xs ++ [']'], rfl, rfl, by decide⟩
  | obj fs => exact ⟨lbrace, serObj fs ++ [rbrace], rfl, rfl, by decide⟩

/-- The rendering of the elements after the first one in a nonempty array. -/
def arrTail : List Json → List Char
  | [] => []
  | y :: t => ',' :: serArr (y :: t)

/-- The rendering of the members after the first one in a nonempty object. -/
def objTail : List (String × Json) → List Char
  | [] => []
  | f :: t => ',' :: serObj (f :: t)

theorem serArr_cons (x : Json) (t : List Json) :
    serArr (x :: t) = serJson x ++ arrTail t := by
  cases t with
  | nil => simp [serArr, arrTail]
  | cons y t' => rw [serArr, arrTail]

theorem serObj_cons (k : String) (v : Json) (t : List (String × Json)) :
    serObj ((k, v) :: t)
      = ('"' :: (escList k.data ++ '"' :: ':' :: serJson v)) ++ objTail t := by
  cases t with
  | nil => simp [serObj, objTail]
  | cons f t' => rw [serObj, objTail]

theorem parseVal_num (fuel : Nat) (i : Int) (rest : List Char) (hsep : isSep rest = true) :
    parseVal (fuel + 1) (intChars i ++ rest) = some (.num i, rest) := by
  have hdig := takeDigits_of_isSep hsep
  by_cases hneg : i < 0
  · have hl : intChars i ++ rest = '-' :: (natChars i.natAbs ++ rest) := by
      rw [intChars, if_pos hneg]; rfl
    rw [hl, parseVal_neg fuel (skipWs_cons _ rfl),
      parseNatNum_natChars _ _ hdig]
    have habs : -((i.natAbs : Nat) : Int) = i := by omega
    show some (Json.num (-((i.natAbs : Nat) : Int)), rest) = some (.num i, rest)
    rw [habs]
  · obtain ⟨d, t, ht, hd⟩ := natChars_head i.toNat
    have hl : intChars i ++ rest = digitChar d :: (t ++ rest) := by
      rw [intChars, if_neg hneg, ht]; rfl
    rw [hl, parseVal_digit fuel hd (skipWs_cons _ (digitChar_not_ws hd))]
    have hback : digitChar d :: (t ++ rest) = natChars i.toNat ++ rest := by
      rw [ht]; rfl
    rw [hback, parseNatNum_natChars _ _ hdig]
    have htn : ((i.toNat : Nat) : Int) = i := by omega
    show some (Json.num ((i.toNat : Nat) : Int), rest) = some (.num i, rest)
    rw [htn]

theorem parseVal_strLit (fuel : Nat) (s : String) (rest : List Char) :
    parseVal (fuel + 1) (serJson (.str s) ++ rest) = some (.str s, rest) := by
  have hl : serJson (.str s) ++ rest = '"' :: (escList s.data ++ '"' :: rest) := by
    rw [serJson]; simp [List.append_assoc]
  rw [hl, parseVal_quote fuel (skipWs_cons _ rfl), parseStrBody_escList]
  show some (Json.str (String.mk s.data), rest) = some (.str s, rest)
  rw [stringMk_data]

theorem parse_ser_all (fuel : Nat) :
    (∀ v rest, jsize v ≤ fuel → isSep rest = true →
      parseVal fuel (serJson v ++ rest) = some (v, rest)) ∧
    (∀ xs rest, xs ≠ [] → esize xs ≤ fuel →
      parseElems fuel (serArr xs ++ ']' :: rest) = some (xs, rest)) ∧
    (∀ fs rest, fs ≠ [] → msize fs ≤ fuel →
      parseMembers fuel (serObj fs ++ rbrace :: rest) = some (fs, rest)) := by
  induction fuel with
  | zero =>
    refine ⟨fun v rest hsz _ => absurd hsz (by have := jsize_pos v; omega),
      fun xs rest hne hsz => ?_, fun fs rest hne hsz => ?_⟩
    · cases xs with
      | nil => exact absurd rfl hne
      | cons x t => rw [esize] at hsz; omega
    · cases fs with
      | nil => exact absurd rfl hne
      | cons f t =>
        obtain ⟨k, v⟩ := f
        rw [msize] at hsz; omega
  | succ fuel ih =>
    obtain ⟨ihv, ihe, ihm⟩ := ih
    refine ⟨fun v rest hsz hsep => ?_, fun xs rest hne hsz => ?_, fun fs rest hne hsz => ?_⟩
    · cases v with
      | null =>
        refine parseVal_null fuel ?_
        rw [show serJson Json.null ++ rest = 'n' :: 'u' :: 'l' :: 'l' :: rest from rfl]
        exact skipWs_cons _ rfl
      | bool b =>
        cases b with
        | true =>
          refine parseVal_true fuel ?_
          rw [show serJson (Json.bool true) ++ rest = 't' :: 'r' :: 'u' :: 'e' :: rest from rfl]
          exact skipWs_cons _ rfl
        | false =>
          refine parseVal_false fuel ?_
          rw [show serJson (Json.bool false) ++ rest
            = 'f' :: 'a' :: 'l' :: 's' :: 'e' :: rest from rfl]
          exact skipWs_cons _ rfl
      | num i =>
        rw [show serJson (Json.num i) = intChars i from by rw [serJson]]
        exact parseVal_num fuel i rest hsep
      | str s => exact parseVal_strLit fuel s rest
      | arr xs =>
        cases xs with
        | nil =>
          have h1 : skipWs (serJson (Json.arr []) ++ rest) = '[' :: (']' :: rest) := by
            rw [show serJson (Json.arr []) ++ rest = '[' :: ']' :: rest from by
              rw [serJson, serArr]; simp]
            exact skipWs_cons _ rfl
          exact parseVal_arrNil fuel h1 (skipWs_cons _ rfl)
        | cons x t =>
          obtain ⟨c, l', hc, hw, hnb⟩ := serJson_head x
          have hA : serArr (x :: t) ++ ']' :: rest
              = c :: (l' ++ (arrTail t ++ ']' :: rest)) := by
            rw [serArr_cons, hc]
            simp only [List.append_assoc, List.cons_append]
          have h1 : skipWs (serJson (Json.arr (x :: t)) ++ rest)
              = '[' :: (serArr (x :: t) ++ ']' :: rest) := by
            rw [show serJson (Json.arr (x :: t)) ++ rest
                = '[' :: (serArr (x :: t) ++ ']' :: rest) from by
              rw [serJson]
              simp only [List.append_assoc, List.cons_append, List.singleton_append,
                List.nil_append]]
            exact skipWs_cons _ rfl
          have h2 : skipWs (serArr (x :: t) ++ ']' :: rest)
              = c :: (l' ++ (arrTail t ++ ']' :: rest)) := by
            rw [hA]; exact skipWs_cons _ hw
          rw [parseVal_arrCons fuel h1 h2 hnb, ← hA,
            ihe (x :: t) rest (by simp) (by rw [jsize] at hsz; omega)]
          rfl
      | obj fs =>
        cases fs with
        | nil =>
          have h1 : skipWs (serJson (Json.obj []) ++ rest) = lbrace :: (rbrace :: rest) := by
            rw [show serJson (Json.obj []) ++ rest = lbrace :: rbrace :: rest from by
              rw [serJson, serObj]; simp]
            exact skipWs_cons _ rfl
          exact parseVal_objNil fuel h1 (skipWs_cons _ rfl)
        | cons f t =>
          obtain ⟨k, v⟩ := f
          have hM : serObj ((k, v) :: t) ++ rbrace :: rest
              = '"' :: (escList k.data
                  ++ ('"' :: (':' :: (serJson v ++ (objTail t ++ rbrace :: rest))))) := by
            rw [serObj_cons]
            simp only [List.append_assoc, List.cons_append]
          have h1 : skipWs (serJson (Json.obj ((k, v) :: t)) ++ rest)
              = lbrace :: (serObj ((k, v) :: t) ++ rbrace :: rest) := by
            rw [show serJson (Json.obj ((k, v) :: t)) ++ rest
                = lbrace :: (serObj ((k, v) :: t) ++ rbrace :: rest) from by
              rw [serJson]
              simp only [List.append_assoc, List.cons_append, List.singleton_append,
                List.nil_append]]
            exact skipWs_cons _ rfl
          have h2 : skipWs (serObj ((k, v) :: t) ++ rbrace :: rest)
              = '"' :: (escList k.data
                  ++ ('"' :: (':' :: (serJson v ++ (objTail t ++ rbrace :: rest))))) := by
            rw [hM]; exact skipWs_cons _ rfl
          rw [parseVal_objCons fuel h1 h2 (by decide), ← hM,
            ihm ((k, v) :: t) rest (by simp) (by rw [jsize] at hsz; omega)]
          rfl
    · cases xs with
      | nil => exact absurd rfl hne
      | cons x t =>
        rw [esize] at hsz
        cases t with
        | nil =>
          have hIn1 : serArr [x] ++ ']' :: rest = serJson x ++ ']' :: rest := by
            rw [serArr]
          have hv : parseVal fuel (serArr [x] ++ ']' :: rest) = some (x, ']' :: rest) := by
            rw [hIn1]; exact ihv x (']' :: rest) (by omega) rfl
          exact parseElems_last fuel hv (skipWs_cons _ rfl)
        | cons y t' =>
          have hIn2 : serArr (x :: y :: t') ++ ']' :: rest
              = serJson x ++ (',' :: (serArr (y :: t') ++ ']' :: rest)) := by
            rw [serArr]
            simp only [List.append_assoc, List.cons_append]
          have hv : parseVal fuel (serArr (x :: y :: t') ++ ']' :: rest)
              = some (x, ',' :: (serArr (y :: t') ++ ']' :: rest)) := by
            rw [hIn2]; exact ihv x _ (by omega) rfl
          have hrec : parseElems fuel (serArr (y :: t') ++ ']' :: rest)
              = some (y :: t', rest) :=
            ihe (y :: t') rest (by simp) (by omega)
          exact parseElems_cons fuel hv (skipWs_cons _ rfl) hrec
    · cases fs with
      | nil => exact absurd rfl hne
      | cons f t =>
        obtain ⟨k, v⟩ := f
        rw [msize] at hsz
        cases t with
        | nil =>
          have hM : serObj [(k, v)] ++ rbrace :: rest
              = '"' :: (escList k.data ++ ('"' :: (':' :: (serJson v ++ rbrace :: rest)))) := by
            rw [serObj_cons, objTail]
            simp only [List.append_assoc, List.cons_append, List.append_nil, List.nil_append]
          have h0 : skipWs (serObj [(k, v)] ++ rbrace :: rest)
              = '"' :: (escList k.data ++ ('"' :: (':' :: (serJson v ++ rbrace :: rest)))) := by
            rw [hM]; exact skipWs_cons _ rfl
          have hk : parseStrBody (escList k.data
                ++ ('"' :: (':' :: (serJson v ++ rbrace :: rest))))
              = some (k.data, ':' :: (serJson v ++ rbrace :: rest)) := by
            rw [show (escList k.data ++ ('"' :: (':' :: (serJson v ++ rbrace :: rest))))
                = escList k.data ++ '"' :: (':' :: (serJson v ++ rbrace :: rest)) from rfl]
            exact parseStrBody_escList k.data _
          have hv : parseVal fuel (serJson v ++ rbrace :: rest) = some (v, rbrace :: rest) :=
            ihv v (rbrace :: rest) (by omega) rfl
          have hres := parseMembers_last (l := serObj [(k, v)] ++ rbrace :: rest) fuel h0 hk
            (skipWs_cons _ rfl) hv (skipWs_cons _ rfl)
          rw [hres]
        | cons f' t'' =>
          have hM : serObj ((k, v) :: f' :: t'') ++ rbrace :: rest
              = '"' :: (escList k.data ++ ('"' :: (':' :: (serJson v
                  ++ (',' :: (serObj (f' :: t'') ++ rbrace :: rest)))))) := by
            rw [serObj_cons, objTail]
            simp only [List.append_assoc, List.cons_append]
          have h0 : skipWs (serObj ((k, v) :: f' :: t'') ++ rbrace :: rest)
              = '"' :: (escList k.data ++ ('"' :: (':' :: (serJson v
                  ++ (',' :: (serObj (f' :: t'') ++ rbrace :: rest)))))) := by
            rw [hM]; exact skipWs_cons _ rfl
          have hk : parseStrBody (escList k.data ++ ('"' :: (':' :: (serJson v
                ++ (',' :: (serObj (f' :: t'') ++ rbrace :: rest))))))
              = some (k.data, ':' :: (serJson v
                  ++ (',' :: (serObj (f' :: t'') ++ rbrace :: rest)))) :=
            parseStrBody_escList k.data _
          have hv : parseVal fuel (serJson v
                ++ (',' :: (serObj (f' :: t'') ++ rbrace :: rest)))
              = some (v, ',' :: (serObj (f' :: t'') ++ rbrace :: rest)) :=
            ihv v _ (by omega) rfl
          have hrec : parseMembers fuel (serObj (f' :: t'') ++ rbrace :: rest)
              = some (f' :: t'', rest) :=
            ihm (f' :: t'') rest (by simp) (by omega)
          have hres := parseMembers_cons (l := serObj ((k, v) :: f' :: t'') ++ rbrace :: rest)
            fuel h0 hk (skipWs_cons _ rfl) hv (skipWs_cons _ rfl) hrec
          rw [hres]

theorem natChars_length_pos (n : Nat) : 1 ≤ (natChars n).length := by
  obtain ⟨d, t, ht, _⟩ := natChars_head n
  rw [ht]
  simp

mutual

theorem jsize_le_length (v : Json) : jsize v ≤ (serJson v).length := by
  cases v with
  | null => simp [jsize, serJson]
  | bool b => cases b <;> simp [jsize, serJson]
  | num i =>
    rw [jsize, serJson, intChars]
    by_cases h : i < 0
    · rw [if_pos h]
      have := natChars_length_pos i.natAbs
      simp only [List.length_cons]
      omega
    · rw [if_neg h]
      exact natChars_length_pos i.toNat
  | str s => simp [jsize, serJson]
  | arr xs =>
    rw [jsize, serJson]
    have h := esize_le_length xs
    simp only [List.length_cons, List.length_append, List.length_singleton]
    omega
  | obj fs =>
    rw [jsize, serJson]
    have h := msize_le_length fs
    simp only [List.length_cons, List.length_append, List.length_singleton]
    omega

theorem esize_le_length (xs : List Json) : esize xs ≤ (serArr xs).length + 1 := by
  cases xs with
  | nil => simp [esize, serArr]
  | cons x t =>
    cases t with
    | nil =>
      rw [esize, esize, serArr]
      have h := jsize_le_length x
      omega
    | cons y t' =>
      rw [esize, serArr]
      have h1 := jsize_le_length x
      have h2 := esize_le_length (y :: t')
      simp only [List.length_append, List.length_cons]
      omega

theorem msize_le_length (fs : List (String × Json)) : msize fs ≤ (serObj fs).length + 1 := by
  cases fs with
  | nil => simp [msize, serObj]
  | cons f t =>
    obtain ⟨k, v⟩ := f
    cases t with
    | nil =>
      rw [msize, msize, serObj]
      have h := jsize_le_length v
      simp only [List.length_cons, List.length_append]
      omega
    | cons f' t' =>
      rw [msize, serObj]
      have h1 := jsize_le_length v
      have h2 := msize_le_length (f' :: t')
      simp only [List.length_append, List.length_cons]
      omega

end

theorem parseJson_serJson (v : Json) : parseJson (serJson v) = some v := by
  have hmain := (parse_ser_all ((serJson v).length + 1)).1 v []
    (by have := jsize_le_length v; omega) rfl
  rw [List.append_nil] at hmain
  rw [parseJson, hmain]
  rfl

/-- The request the supervisor sends the child; models the Rust struct
`EvaluationRequest` (the `Cow` wrappers serialize transparently as the
wrapped filter string and payload value). -/
structure EvaluationRequest where
  filter : String
  payload : Json

/-- Modelled from the spec: the derived serde serialization of
`EvaluationRequest` that the Rust code obtains from
`serde_json::to_string` — one JSON object with the fields `filter`
(string) and `payload` (arbitrary JSON value), in declaration order. -/
def serializeRequest (r : EvaluationRequest) : List Char :=
  serJson (.obj [("filter", .str r.filter), ("payload", r.payload)])

/-- First-match field lookup in a JSON object. -/
def lookupField : List (String × Json) → String → Option Json
  | [], _ => none
  | (k, v) :: t, n => if k = n then some v else lookupField t n

/-- Modelled from the spec: the derived serde deserialization of
`EvaluationRequest` — requires a JSON object carrying a string field
`filter` and a field `payload`; unknown fields are ignored. -/
def decodeRequest : Json → Option EvaluationRequest
  | .obj fs =>
    match lookupField fs "filter" with
    | some (.str f) =>
      match lookupField fs "payload" with
      | some p => some ⟨f, p⟩
      | none => none
    | _ => none
  | _ => none

/-- The child's view of the request bytes: parse the JSON document, then
decode the struct, as `serde_json::from_slice::<EvaluationRequest>` does. -/
def deserializeRequest (l : List Char) : Option EvaluationRequest :=
  (parseJson l).bind decodeRequest

theorem decodeRequest_encoded (f : String) (p : Json) :
    decodeRequest (.obj [("filter", .str f), ("payload", p)]) = some ⟨f, p⟩ := by
  simp [decodeRequest, lookupField]

theorem deserializeRequest_serializeRequest (r : EvaluationRequest) :
    deserializeRequest (serializeRequest r) = some r := by
  rw [deserializeRequest, serializeRequest, parseJson_serJson]
  show decodeRequest (.obj [("filter", .str r.filter), ("payload", r.payload)]) = some r
  rw [decodeRequest_encoded]

/-- Modelled from the spec: regular expressions for the jq `test` builtin
(the filter-language runtime is an out-of-scope external capability, §4.3),
covering the dialect the spec's testable properties exercise: literal
characters, `\d`, `.`, grouping, alternation, `+`, `*`, `?` and the `^`/`$`
anchors. -/
inductive Re where
  | fail : Re
  | eps : Re
  | ch (c : Char) : Re
  | anyCh : Re
  | digitCls : Re
  | seq (a b : Re) : Re
  | alt (a b : Re) : Re
  | star (a : Re) : Re

/-- Whether a regular expression accepts the empty string. -/
def nullable : Re → Bool
  | .fail => false
  | .eps => true
  | .ch _ => false
  | .anyCh => false
  | .digitCls => false
  | .seq a b => nullable a && nullable b
  | .alt a b => nullable a || nullable b
  | .star _ => true

/-- Brzozowski derivative of a regular expression by one character. -/
def rederiv : Re → Char → Re
  | .fail, _ => .fail
  | .eps, _ => .fail
  | .ch c, x => if x = c then .eps else .fail
  | .anyCh, _ => .eps
  | .digitCls, x => if isDigitCh x then .eps else .fail
  | .seq a b, x => if nullable a then .alt (.seq (rederiv a x) b) (rederiv b x) else .seq (rederiv a x) b
  | .alt a b, x => .alt (rederiv a x) (rederiv b x)
  | .star a, x => .seq (rederiv a x) (.star a)

/-- Whether a regular expression matches the whole character list. -/
def reFullMatch (r : Re) (s : List Char) : Bool :=
  nullable (s.foldl rederiv r)

mutual

/-- Regex pattern syntax: alternation level. -/
def parseRAlt : Nat → List Char → Option (Re × List Char)
  | 0, _ => none
  | fuel + 1, l =>
    match parseRSeq fuel l with
    | none => none
    | some (a, l1) =>
      match l1 with
      | '|' :: l2 =>
        match parseRAlt fuel l2 with
        | some (b, l3) => some (.alt a b, l3)
        | none => none
      | _ => some (a, l1)

/-- Regex pattern syntax: concatenation level. -/
def parseRSeq : Nat → List Char → Option (Re × List Char)
  | 0, _ => none
  | fuel + 1, l =>
    match parseRPiece fuel l with
    | none => none
    | some (a, l1) =>
      match l1 with
      | [] => some (a, l1)
      | c :: _ =>
        if c = '|' || c = ')' || c = '$' then some (a, l1)
        else
          match parseRSeq fuel l1 with
          | some (b, l2) => some (.seq a b, l2)
          | none => none

/-- Regex pattern syntax: an atom with an optional postfix quantifier. -/
def parseRPiece : Nat → List Char → Option (Re × List Char)
  | 0, _ => none
  | fuel + 1, l =>
    match parseRAtom fuel l with
    | none => none
    | some (a, l1) =>
      match l1 with
      | '+' :: l2 => some (.seq a (.star a), l2)
      | '*' :: l2 => some (.star a, l2)
      | '?' :: l2 => some (.alt a .eps, l2)
      | _ => some (a, l1)

/-- Regex pattern syntax: atoms. -/
def parseRAtom : Nat → List Char → Option (Re × List Char)
  | 0, _ => none
  | fuel + 1, l =>
    match l with
    | '(' :: l1 =>
      (match parseRAlt fuel l1 with
       | some (a, l2) =>
         match l2 with
         | ')' :: l3 => some (a, l3)
         | _ => none
       | none => none)
    | '\\' :: e :: l1 => if e = 'd' then some (.digitCls, l1) else some (.ch e, l1)
    | '.' :: l1 => some (.anyCh, l1)
    | c :: l1 =>
      if c = '|' || c = ')' || c = '(' || c = '+' || c = '*' || c = '?' || c = '^' || c = '$'
      then none
      else some (.ch c, l1)
    | [] => none

end

/-- A compiled regex: the body plus its start/end anchoring. -/
structure CompiledRegex where
  anchoredStart : Bool
  anchoredEnd : Bool
  body : Re

/-- Parses a regex pattern, peeling the `^`/`$` anchors off the ends. -/
def parseRegex (s : String) : Option CompiledRegex :=
  let p : Bool × List Char :=
    match s.data with
    | '^' :: t => (true, t)
    | l => (false, l)
  match parseRAlt ((p.2.length + 1) * 4) p.2 with
  | some (a, l2) =>
    match l2 with
    | ['$'] => some ⟨p.1, true, a⟩
    | [] => some ⟨p.1, false, a⟩
    | _ => none
  | none => none

/-- Search semantics of jq `test`: does the regex match somewhere in the
input, respecting the anchors? -/
def regexAccepts (cr : CompiledRegex) (s : List Char) : Bool :=
  match cr.anchoredStart, cr.anchoredEnd with
  | true, true => reFullMatch cr.body s
  | true, false => (List.range (s.length + 1)).any fun i => reFullMatch cr.body (s.take i)
  | false, true => (List.range (s.length + 1)).any fun i => reFullMatch cr.body (s.drop i)
  | false, false =>
    (List.range (s.length + 1)).any fun i =>
      (List.range (s.length - i + 1)).any fun j => reFullMatch cr.body ((s.drop i).take j)

/-- Modelled from the spec: the raw abstract syntax the loader produces for
the jq-dialect subset the spec's properties exercise — identity `.`, field
access `.name`, string literals, `|`, `//`, and function calls with at most
one argument. -/
inductive JaqRaw where
  | identity : JaqRaw
  | field (name : String) : JaqRaw
  | lit (v : Json) : JaqRaw
  | pipe (l r : JaqRaw) : JaqRaw
  | alt (l r : JaqRaw) : JaqRaw
  | call (name : String) (arg : Option JaqRaw) : JaqRaw

/-- Modelled from the spec: the compiled filter form, with known function
calls resolved. -/
inductive Jaq where
  | identity : Jaq
  | field (name : String) : Jaq
  | lit (v : Json) : Jaq
  | pipe (l r : Jaq) : Jaq
  | alt (l r : Jaq) : Jaq
  | test (arg : Jaq) : Jaq

/-- Splits a maximal run of identifier characters off the input. -/
def takeIdent : List Char → List Char × List Char
  | [] => ([], [])
  | c :: l =>
    if c.isAlpha || c.isDigit || c = '_' then
      let p := takeIdent l
      (c :: p.1, p.2)
    else ([], c :: l)

/-- Filter-language string literal body: the standard escapes resolve, an
unknown escape such as `\d` stays as backslash-plus-character (matching the
observed engine behaviour on the spec's regex-bearing filters). -/
def parseFilterStrBody : List Char → Option (List Char × List Char)
  | [] => none
  | c :: rest =>
    if c = '"' then some ([], rest)
    else if c = '\\' then
      match rest with
      | [] => none
      | e :: rest1 =>
        let repl : List Char :=
          if e = '"' then ['"']
          else if e = '\\' then ['\\']
          else if e = '/' then ['/']
          else if e = 'n' then [Char.ofNat 10]
          else if e = 't' then [Char.ofNat 9]
          else if e = 'r' then [Char.ofNat 13]
          else if e = 'b' then [Char.ofNat 8]
          else if e = 'f' then [Char.ofNat 12]
          else ['\\', e]
        (parseFilterStrBody rest1).map fun (p : List Char × List Char) => (repl ++ p.1, p.2)
    else (parseFilterStrBody rest).map fun (p : List Char × List Char) => (c :: p.1, p.2)

mutual

/-- Filter syntax: pipe level (`f | g`), lowest precedence. -/
def parsePipeF : Nat → List Char → Option (JaqRaw × List Char)
  | 0, _ => none
  | fuel + 1, l =>
    match parseAltF fuel l with
    | none => none
    | some (a, l1) =>
      match skipWs l1 with
      | '|' :: l2 =>
        match parsePipeF fuel l2 with
        | some (b, l3) => some (.pipe a b, l3)
        | none => none
      | l1' => some (a, l1')

/-- Filter syntax: alternative level (`f // g`). -/
def parseAltF : Nat → List Char → Option (JaqRaw × List Char)
  | 0, _ => none
  | fuel + 1, l =>
    match parsePrimF fuel l with
    | none => none
    | some (a, l1) =>
      match skipWs l1 with
      | '/' :: '/' :: l2 =>
        match parseAltF fuel l2 with
        | some (b, l3) => some (.alt a b, l3)
        | none => none
      | l1' => some (a, l1')

/-- Filter syntax: primary expressions. -/
def parsePrimF : Nat → List Char → Option (JaqRaw × List Char)
  | 0, _ => none
  | fuel + 1, l =>
    match skipWs l with
    | '.' :: l1 =>
      let p := takeIdent l1
      if p.1.isEmpty then some (.identity, l1) else some (.field (String.mk p.1), p.2)
    | '(' :: l1 =>
      (match parsePipeF fuel l1 with
       | some (a, l2) =>
         match skipWs l2 with
         | ')' :: l3 => some (a, l3)
         | _ => none
       | none => none)
    | '"' :: l1 =>
      (parseFilterStrBody l1).map fun (p : List Char × List Char) =>
        (JaqRaw.lit (.str (String.mk p.1)), p.2)
    | c :: l1 =>
      if c.isAlpha || c = '_' then
        let p := takeIdent (c :: l1)
        match skipWs p.2 with
        | '(' :: l2 =>
          (match parsePipeF fuel l2 with
           | some (a, l3) =>
             match skipWs l3 with
             | ')' :: l4 => some (.call (String.mk p.1) (some a), l4)
             | _ => none
           | none => none)
        | l2' => some (.call (String.mk p.1) none, l2')
      else none
    | [] => none

end

/-- Modelled from the spec: the load step of the out-of-scope jaq engine
(`Loader::load` against the standard definitions): parse the filter text,
requiring it to be consumed completely. -/
def loadFilter (s : String) : Except String JaqRaw :=
  match parsePipeF ((s.data.length + 1) * 4) s.data with
  | some (a, rest) => if (skipWs rest).isEmpty then .ok a else .error "unexpected trailing input"
  | none => .error "syntax error"

/-- Modelled from the spec: the compile step of the out-of-scope jaq engine
(`Compiler::compile` with the standard functions): resolves function calls,
rejecting unknown names. -/
def compileFilter : JaqRaw → Except String Jaq
  | .identity => .ok .identity
  | .field n => .ok (.field n)
  | .lit v => .ok (.lit v)
  | .pipe a b =>
    match compileFilter a, compileFilter b with
    | .ok a', .ok b' => .ok (.pipe a' b')
    | .error e, _ => .error e
    | _, .error e => .error e
  | .alt a b =>
    match compileFilter a, compileFilter b with
    | .ok a', .ok b' => .ok (.alt a' b')
    | .error e, _ => .error e
    | _, .error e => .error e
  | .call n arg =>
    if n = "test" then
      match arg with
      | some a => (compileFilter a).map .test
      | none => .error "test requires an argument"
    else .error ("undefined function " ++ n)

/-- jq truthiness: everything except `null` and `false`. -/
def truthy : Json → Bool
  | .null => false
  | .bool false => false
  | _ => true

/-- Modelled from the spec: running a compiled filter on one input value
produces a lazy sequence of output values, each either a value or an
internal evaluation error (§4.3); modelled as the finite list of produced
items. -/
def runFilter : Jaq → Json → List (Except String Json)
  | .identity, v => [.ok v]
  | .field n, v =>
    match v with
    | .obj fs => [.ok ((lookupField fs n).getD .null)]
    | .null => [.ok .null]
    | _ => [.error ("cannot index value with " ++ n)]
  | .lit c, _ => [.ok c]
  | .pipe a b, v =>
    (runFilter a v).flatMap fun item =>
      match item with
      | .ok x => runFilter b x
      | .error e => [.error e]
  | .alt a b, v =>
    let good := (runFilter a v).filterMap fun item =>
      match item with
      | .ok x => if truthy x then some (Except.ok x) else none
      | .error _ => none
    if good.isEmpty then runFilter b v else good
  | .test a, v =>
    (runFilter a v).flatMap fun item =>
      match item with
      | .ok (.str pat) =>
        (match parseRegex pat with
         | some cr =>
           match v with
           | .str s => [.ok (.bool (regexAccepts cr s.data))]
           | _ => [.error "test input must be a string"]
         | none => [.error "invalid regex"])
      | .ok _ => [.error "test pattern must be a string"]
      | .error e => [.error e]

/-- The closure of the `find_map` call in `evaluate` (src/safejaq/src/lib.rs,
lines 252-258): picks out an output item exactly when it is an `Ok` boolean
value. -/
def boolOf : Except String Json → Option Bool
  | .ok (.bool value) => some value
  | _ => none

/-- The child-side filter-engine adapter `evaluate` (src/safejaq/src/lib.rs,
lines 228-261): load the filter (errors prefixed "failed to parse the
filter"), compile it (errors prefixed "failed to compile the filter"), run
it on the payload, and return the first boolean output, defaulting to
`false`. -/
def evaluate (request : EvaluationRequest) : Except String Bool :=
  match loadFilter request.filter with
  | .error errors => .error ("failed to parse the filter: " ++ errors)
  | .ok modules =>
    match compileFilter modules with
    | .error errors => .error ("failed to compile the filter: " ++ errors)
    | .ok filter =>
      let found_match := ((runFilter filter request.payload).findSome? boolOf).getD false
      .ok found_match

/-- The child's response type: `type EvaluationResult = Result<bool, String>`
(src/safejaq/src/lib.rs, line 26). -/
def EvaluationResult : Type := Except String Bool

/-- Modelled from the spec: serde's serialization of `Result<bool, String>`
as written by the child (`serde_json::to_writer`, line 200): an object with
the single field `Ok` holding the boolean, or `Err` holding the message. -/
def serializeEvaluationResult (res : Except String Bool) : List Char :=
  match res with
  | .ok b => serJson (.obj [("Ok", .bool b)])
  | .error m => serJson (.obj [("Err", .str m)])

/-- Modelled from the spec: serde's deserialization of `Result<bool, String>`
— exactly one of the externally tagged variants. -/
def decodeEvaluationResult : Json → Option (Except String Bool)
  | .obj [(k, v)] =>
    if k = "Ok" then
      match v with
      | .bool b => some (.ok b)
      | _ => none
    else if k = "Err" then
      match v with
      | .str m => some (.error m)
      | _ => none
    else none
  | _ => none

/-- The supervisor's view of the child's stdout bytes, as
`serde_json::from_slice::<EvaluationResult>` (line 179) sees them. -/
def parseEvaluationResult (l : List Char) : Option (Except String Bool) :=
  (parseJson l).bind decodeEvaluationResult

theorem parseEvaluationResult_serialize (res : Except String Bool) :
    parseEvaluationResult (serializeEvaluationResult res) = some res := by
  cases res with
  | ok b =>
    rw [serializeEvaluationResult, parseEvaluationResult, parseJson_serJson]
    show decodeEvaluationResult (.obj [("Ok", .bool b)]) = some (.ok b)
    rw [decodeEvaluationResult]
    simp
  | error m =>
    rw [serializeEvaluationResult, parseEvaluationResult, parseJson_serJson]
    show decodeEvaluationResult (.obj [("Err", .str m)]) = some (.error m)
    rw [decodeEvaluationResult]
    simp

/-- One process's resource-limit state: the soft and hard ceilings for
address space, CPU time and core-dump size, as manipulated through
`getrlimit`/`setrlimit`. -/
structure Rlimits where
  as_soft : Nat
  as_hard : Nat
  cpu_soft : Nat
  cpu_hard : Nat
  core_soft : Nat
  core_hard : Nat

/-- The child's limit setup `set_limits` (src/safejaq/src/lib.rs, lines
204-226) as a state transformer on the inherited limits: lower `RLIMIT_AS`
to the memory limit only when the memory limit is strictly below the
inherited soft limit, lower `RLIMIT_CPU` to the time limit only when it is
strictly below the inherited soft limit, and zero `RLIMIT_CORE`
unconditionally (the syscalls are modelled as succeeding; the code panics
on failure). -/
def set_limits (memory_limit time_limit : Nat) (r : Rlimits) : Rlimits :=
  let r1 :=
    if memory_limit < r.as_soft then
      { r with as_soft := memory_limit, as_hard := memory_limit }
    else r
  let r2 :=
    if time_limit < r1.cpu_soft then
      { r1 with cpu_soft := time_limit, cpu_hard := time_limit }
    else r1
  { r2 with core_soft := 0, core_hard := 0 }

/-- How one run of the child process ends, seen from outside. -/
inductive ChildOutcome where
  | panic (msg : String) : ChildOutcome
  | exit (code : Nat) (stdout : List Char) : ChildOutcome

/-- The child entrypoint `evaluator_main` (src/safejaq/src/lib.rs, lines
188-203) as a function of the bytes read from standard input: parse them as
an `EvaluationRequest` (a failure panics via `expect`, an abnormal
termination), evaluate, write the serialized `EvaluationResult` to standard
output, and exit with status 0. The `set_limits` call is modelled
separately as the `Rlimits` state transformer; a failure to read stdin also
panics and is subsumed by supplying the bytes. -/
def evaluator_main (stdin : List Char) : ChildOutcome :=
  match deserializeRequest stdin with
  | none => .panic "failed to parse EvaluationRequest"
  | some request => .exit 0 (serializeEvaluationResult (evaluate request))

/-- The supervisor configuration (the `SafeJaq` struct): its `Duration` time
limit is modelled at millisecond granularity (`as_secs` becomes division by
1000), its memory limit in bytes. -/
structure SafeJaq where
  time_limit_ms : Nat
  memory_limit : Nat

/-- The supervisor's error taxonomy `SafeJaqError` (src/safejaq/src/lib.rs,
lines 37-51). -/
inductive SafeJaqError where
  | Command (msg : String) : SafeJaqError
  | LimitExceeded (time_limit_ms : Nat) (memory_limit : Nat) : SafeJaqError
  | Evaluation (msg : String) : SafeJaqError

/-- The arguments `SafeJaq::evaluate` passes when re-execing the current
executable (src/safejaq/src/lib.rs, lines 75-88): the `jaq-eval` mode
selector, `-m` with the memory limit in bytes, and `-t` with the time limit
truncated to whole seconds (`Duration::as_secs`). -/
def SafeJaq.spawnArgs (s : SafeJaq) : List String :=
  ["jaq-eval", "-m", String.mk (natChars s.memory_limit), "-t",
    String.mk (natChars (s.time_limit_ms / 1000))]

/-- The wall-clock deadline `SafeJaq::evaluate` applies to the whole
write-request/shutdown/wait exchange (`tokio::time::timeout(self.time_limit,
…)`, line 100): the full configured time limit. -/
def SafeJaq.raceDeadlineMs (s : SafeJaq) : Nat := s.time_limit_ms

/-- Outcome of racing the write/shutdown/wait chain against the deadline:
the chain completed (with `Ok(())` or an I/O error), or the deadline
elapsed first. -/
inductive RaceOutcome where
  | completed (io : Except String Unit) : RaceOutcome
  | timedOut : RaceOutcome

/-- What `wait_with_output` reports once the child has finished: its exit
status (summarized by `success`) and captured stdout bytes. -/
structure ChildOutput where
  success : Bool
  stdout : List Char

/-- The tail of `SafeJaq::evaluate` (src/safejaq/src/lib.rs, lines 163-184),
entered only when the race completed cleanly: a `wait_with_output` error
maps to `Command`; a non-success exit status maps to
`LimitExceeded(time_limit, memory_limit)`; on success the stdout bytes are
parsed as an `EvaluationResult`, whose boolean becomes `Ok`, whose embedded
message becomes `Evaluation`, and whose parse failure becomes `Command`. -/
def SafeJaq.interpretChildOutput (s : SafeJaq) (wait : Except String ChildOutput) :
    Except SafeJaqError Bool :=
  match wait with
  | .error e => .error (.Command e)
  | .ok out =>
    if out.success then
      match parseEvaluationResult out.stdout with
      | some (.ok verdict) => .ok verdict
      | some (.error msg) => .error (.Evaluation msg)
      | none => .error (.Command "command printed malformed output")
    else .error (.LimitExceeded s.time_limit_ms s.memory_limit)

/-- What one `SafeJaq::evaluate` call does after the spawn: how many
background reaper tasks it detached, and the result it returns. -/
structure SupervisorStep where
  reapersSpawned : Nat
  result : Except SafeJaqError Bool

/-- The branching core of `SafeJaq::evaluate` (src/safejaq/src/lib.rs, lines
100-184) as a function of the race outcome and of the child's eventual
`wait_with_output` report: only the `completed Ok(())` race outcome
proceeds to interpret the child's output; every other outcome (deadline
elapsed, or any I/O error in the chain) detaches one background reaper task
(`tokio::spawn`, line 123) and returns
`LimitExceeded(time_limit, memory_limit)` at once. -/
def SafeJaq.evaluate (s : SafeJaq) (race : RaceOutcome)
    (wait : Except String ChildOutput) : SupervisorStep :=
  match race with
  | .completed (.ok ()) => ⟨0, s.interpretChildOutput wait⟩
  | .completed (.error _) => ⟨1, .error (.LimitExceeded s.time_limit_ms s.memory_limit)⟩
  | .timedOut => ⟨1, .error (.LimitExceeded s.time_limit_ms s.memory_limit)⟩

theorem findSome?_cons_none {α β : Type} {f : α → Option β} {a : α} (l : List α)
    (hf : f a = none) : (a :: l).findSome? f = l.findSome? f := by
  simp only [List.findSome?, hf]

theorem findSome?_cons_some {α β : Type} {f : α → Option β} {a : α} {b : β} (l : List α)
    (hf : f a = some b) : (a :: l).findSome? f = some b := by
  simp only [List.findSome?, hf]

theorem findSome?_append_none {α β : Type} {f : α → Option β} (pre l : List α)
    (h : ∀ x ∈ pre, f x = none) : (pre ++ l).findSome? f = l.findSome? f := by
  induction pre with
  | nil => rfl
  | cons a t ih =>
    rw [List.cons_append, findSome?_cons_none _ (h a (by simp))]
    exact ih fun x hx => h x (by simp [hx])

theorem findSome?_none_of_all_none {α β : Type} {f : α → Option β} (l : List α)
    (h : ∀ x ∈ l, f x = none) : l.findSome? f = none := by
  induction l with
  | nil => rfl
  | cons a t ih =>
    rw [findSome?_cons_none _ (h a (by simp))]
    exact ih fun x hx => h x (by simp [hx])

theorem evaluate_of_compiled (req : EvaluationRequest) (modules : JaqRaw) (filter : Jaq)
    (hload : loadFilter req.filter = .ok modules)
    (hcompile : compileFilter modules = .ok filter) :
    evaluate req = .ok (((runFilter filter req.payload).findSome? boolOf).getD false) := by
  simp only [evaluate, hload, hcompile]

/-- C1: for every filter that loads and compiles successfully and every
JSON payload, the child-side `evaluate` scans the filter's output sequence
in order and returns `Ok b` where `b` is the first output value that is a
boolean; if no boolean appears (empty sequence, only non-boolean values, or
internal evaluation errors) it returns `Ok false`; internal evaluation
errors are skipped by the scan (they are never selected) and are never
surfaced as an error result. -/
theorem c1_first_bool_scan (req : EvaluationRequest) (modules : JaqRaw) (filter : Jaq)
    (hload : loadFilter req.filter = .ok modules)
    (hcompile : compileFilter modules = .ok filter) :
    (∀ pre b post,
        runFilter filter req.payload = pre ++ (Except.ok (Json.bool b)) :: post →
        (∀ x ∈ pre, boolOf x = none) →
        evaluate req = .ok b)
    ∧ ((∀ x ∈ runFilter filter req.payload, boolOf x = none) → evaluate req = .ok false)
    ∧ (∀ e : String, boolOf (Except.error e) = none)
    ∧ (∃ b, evaluate req = .ok b) := by
  have hev := evaluate_of_compiled req modules filter hload hcompile
  refine ⟨?_, ?_, fun e => rfl, ⟨_, hev⟩⟩
  · intro pre b post hout hpre
    rw [hev, hout, findSome?_append_none _ _ hpre,
      findSome?_cons_some _ (show boolOf (Except.ok (Json.bool b)) = some b from rfl)]
    rfl
  · intro hall
    rw [hev, findSome?_none_of_all_none _ hall]
    rfl

theorem c1_first_bool_scan_witness :
    evaluate ⟨".", Json.bool true⟩ = Except.ok true :=
  (c1_first_bool_scan ⟨".", Json.bool true⟩ .identity .identity rfl rfl).1
    [] true [] rfl (by intro x hx; simp at hx)

/-- C7: for the filter `(.user_id // "") | test("^(liron|\d+)$")`, the
child-side evaluation returns `Ok true` for the payload
`{"user_id":"liron"}` and `Ok false` for the payload
`{"user_id":"definitely not liron"}`. -/
theorem c7_liron_filter :
    evaluate ⟨"(.user_id // \"\") | test(\"^(liron|\\d+)$\")",
        Json.obj [("user_id", Json.str "liron")]⟩ = Except.ok true
    ∧ evaluate ⟨"(.user_id // \"\") | test(\"^(liron|\\d+)$\")",
        Json.obj [("user_id", Json.str "definitely not liron")]⟩ = Except.ok false :=
  ⟨rfl, rfl⟩

/-- C8: the filter text `i am really not a valid filter` applied to any
payload produces an in-band evaluation error (a parse failure), never a
boolean verdict. -/
theorem c8_invalid_filter (payload : Json) :
    (∃ msg, evaluate ⟨"i am really not a valid filter", payload⟩ = .error msg)
    ∧ ∀ b, evaluate ⟨"i am really not a valid filter", payload⟩ ≠ .ok b := by
  have hload : loadFilter "i am really not a valid filter"
      = .error "unexpected trailing input" := rfl
  have hev : evaluate ⟨"i am really not a valid filter", payload⟩
      = .error ("failed to parse the filter: " ++ "unexpected trailing input") := by
    simp only [evaluate, hload]
  exact ⟨⟨_, hev⟩, fun b hb => by rw [hev] at hb; cases hb⟩

theorem c8_invalid_filter_witness :
    evaluate ⟨"i am really not a valid filter", Json.null⟩ ≠ Except.ok true :=
  (c8_invalid_filter Json.null).2 true

/-- C10: serializing an `EvaluationRequest` as the supervisor does and then
deserializing the bytes as the child does yields back a request with the
same filter text and the same payload value — the supervisor-to-child
request encoding round-trips losslessly. -/
theorem c10_request_roundtrip (r : EvaluationRequest) :
    deserializeRequest (serializeRequest r) = some r :=
  deserializeRequest_serializeRequest r

/-- C2: when the child finishes within the deadline (the race completed
with `Ok(())`), `SafeJaq::evaluate` maps the outcome as follows: a
non-success exit status yields `LimitExceeded(time_limit, memory_limit)`;
a success status whose stdout parses as a boolean verdict yields `Ok b`;
a success status whose stdout parses as an embedded error message yields
`Evaluation(message)`; stdout that cannot be parsed as a well-formed
`EvaluationResult` yields a `Command` error describing the protocol
violation. -/
theorem c2_finished_child_mapping (s : SafeJaq) (out : ChildOutput) :
    (out.success = false →
      (s.evaluate (.completed (.ok ())) (.ok out)).result
        = .error (.LimitExceeded s.time_limit_ms s.memory_limit))
    ∧ (∀ b, out.success = true → parseEvaluationResult out.stdout = some (.ok b) →
      (s.evaluate (.completed (.ok ())) (.ok out)).result = .ok b)
    ∧ (∀ msg, out.success = true → parseEvaluationResult out.stdout = some (.error msg) →
      (s.evaluate (.completed (.ok ())) (.ok out)).result = .error (.Evaluation msg))
    ∧ (out.success = true → parseEvaluationResult out.stdout = none →
      ∃ m, (s.evaluate (.completed (.ok ())) (.ok out)).result = .error (.Command m)) := by
  refine ⟨fun hfail => ?_, fun b hsucc hparse => ?_, fun msg hsucc hparse => ?_,
    fun hsucc hparse => ?_⟩
  · simp [SafeJaq.evaluate, SafeJaq.interpretChildOutput, hfail]
  · simp [SafeJaq.evaluate, SafeJaq.interpretChildOutput, hsucc, hparse]
  · simp [SafeJaq.evaluate, SafeJaq.interpretChildOutput, hsucc, hparse]
  · exact ⟨"command printed malformed output",
      by simp [SafeJaq.evaluate, SafeJaq.interpretChildOutput, hsucc, hparse]⟩

theorem c2_finished_child_mapping_witness :
    (SafeJaq.evaluate ⟨1500, 1000000⟩ (.completed (.ok ()))
        (.ok ⟨true, serializeEvaluationResult (.ok true)⟩)).result = Except.ok true :=
  (c2_finished_child_mapping ⟨1500, 1000000⟩
      ⟨true, serializeEvaluationResult (.ok true)⟩).2.1 true rfl
    (parseEvaluationResult_serialize (.ok true))

/-- C3: whenever the configured deadline elapses before the
write/shutdown/wait chain completes, or any of those I/O steps fails,
`SafeJaq::evaluate` spawns exactly one detached background cleanup task and
returns `LimitExceeded` carrying exactly the configured limits — whatever
the child's eventual exit report would have been (the result does not
consult it, i.e. the call does not wait). -/
theorem c3_limit_path (s : SafeJaq) (race : RaceOutcome) (wait : Except String ChildOutput)
    (h : race ≠ .completed (.ok ())) :
    s.evaluate race wait
      = ⟨1, .error (.LimitExceeded s.time_limit_ms s.memory_limit)⟩ := by
  cases race with
  | timedOut => rfl
  | completed io =>
    cases io with
    | error e => rfl
    | ok u => exact absurd rfl (by cases u; exact h)

theorem c3_limit_path_witness :
    SafeJaq.evaluate ⟨250, 64000000⟩ .timedOut (.ok ⟨true, []⟩)
      = ⟨1, .error (.LimitExceeded 250 64000000)⟩ :=
  c3_limit_path ⟨250, 64000000⟩ .timedOut (.ok ⟨true, []⟩) (fun h => nomatch h)

/-- C4: whenever the child entrypoint reaches its structured-response step
(its standard input parses as an `EvaluationRequest`), it writes the
serialized `EvaluationResult` to standard output and exits with the
success code 0 — regardless of whether the filter engine returned `Ok` or
`Err`, since the written payload is the serialization of whatever
`evaluate` produced. -/
theorem c4_clean_exit (stdin : List Char) (request : EvaluationRequest)
    (h : deserializeRequest stdin = some request) :
    evaluator_main stdin = .exit 0 (serializeEvaluationResult (evaluate request)) := by
  simp only [evaluator_main, h]

theorem c4_clean_exit_witness :
    evaluator_main (serializeRequest ⟨".", Json.null⟩)
      = .exit 0 (serializeEvaluationResult (evaluate ⟨".", Json.null⟩)) :=
  c4_clean_exit _ ⟨".", Json.null⟩ rfl

/-- C5: if the bytes read from the child's standard input cannot be parsed
as an `EvaluationRequest`, the child entrypoint terminates abnormally via
panic and never produces a clean exit with a structured payload. -/
theorem c5_malformed_stdin (stdin : List Char) (h : deserializeRequest stdin = none) :
    evaluator_main stdin = .panic "failed to parse EvaluationRequest"
    ∧ ∀ code out, evaluator_main stdin ≠ .exit code out := by
  have hev : evaluator_main stdin = .panic "failed to parse EvaluationRequest" := by
    simp only [evaluator_main, h]
  exact ⟨hev, fun code out hx => by rw [hev] at hx; cases hx⟩

theorem c5_malformed_stdin_witness :
    evaluator_main ("i am not json").data = .panic "failed to parse EvaluationRequest" :=
  (c5_malformed_stdin ("i am not json").data rfl).1

/-- C6: `set_limits` only lowers resource ceilings, never raises them: the
address-space ceiling is set to the memory limit exactly when that limit is
strictly below the inherited soft limit and is left unchanged otherwise,
the CPU-time ceiling is set to the time limit exactly when it is strictly
below the inherited soft limit and is left unchanged otherwise, the
resulting soft ceilings are monotonically non-increasing relative to the
inherited ones, and the core-dump ceiling is zeroed unconditionally. -/
theorem c6_set_limits (memory_limit time_limit : Nat) (r : Rlimits) :
    (memory_limit < r.as_soft →
      (set_limits memory_limit time_limit r).as_soft = memory_limit
      ∧ (set_limits memory_limit time_limit r).as_hard = memory_limit)
    ∧ (¬memory_limit < r.as_soft →
      (set_limits memory_limit time_limit r).as_soft = r.as_soft
      ∧ (set_limits memory_limit time_limit r).as_hard = r.as_hard)
    ∧ (time_limit < r.cpu_soft →
      (set_limits memory_limit time_limit r).cpu_soft = time_limit
      ∧ (set_limits memory_limit time_limit r).cpu_hard = time_limit)
    ∧ (¬time_limit < r.cpu_soft →
      (set_limits memory_limit time_limit r).cpu_soft = r.cpu_soft
      ∧ (set_limits memory_limit time_limit r).cpu_hard = r.cpu_hard)
    ∧ (set_limits memory_limit time_limit r).core_soft = 0
    ∧ (set_limits memory_limit time_limit r).core_hard = 0
    ∧ (set_limits memory_limit time_limit r).as_soft ≤ r.as_soft
    ∧ (set_limits memory_limit time_limit r).cpu_soft ≤ r.cpu_soft := by
  by_cases hm : memory_limit < r.as_soft <;> by_cases ht : time_limit < r.cpu_soft <;>
    simp [set_limits, hm, ht] <;> omega

theorem c6_set_limits_witness :
    (set_limits 500 2 ⟨1000, 2000, 30, 40, 7, 9⟩).as_soft = 500
    ∧ (set_limits 500 2 ⟨1000, 2000, 30, 40, 7, 9⟩).cpu_soft = 2
    ∧ (set_limits 500 2 ⟨1000, 2000, 30, 40, 7, 9⟩).core_soft = 0 :=
  ⟨((c6_set_limits 500 2 ⟨1000, 2000, 30, 40, 7, 9⟩).1 (by norm_num)).1,
    ((c6_set_limits 500 2 ⟨1000, 2000, 30, 40, 7, 9⟩).2.2.1 (by norm_num)).1,
    (c6_set_limits 500 2 ⟨1000, 2000, 30, 40, 7, 9⟩).2.2.2.2.1⟩

/-- C9: the CPU-time ceiling value the supervisor passes to the child on
the command line (the `-t` argument) is the decimal rendering of the time
limit truncated to whole seconds — its decoded numeric value is
`time_limit_ms / 1000`, so a sub-second limit passes 0 — while the
supervisor's own wall-clock deadline on the request/response exchange is
the full, untruncated configured time limit. -/
theorem c9_cpu_seconds_truncated (s : SafeJaq) :
    s.spawnArgs.get? 4 = some (String.mk (natChars (s.time_limit_ms / 1000)))
    ∧ parseNatNum (natChars (s.time_limit_ms / 1000))
        = some (s.time_limit_ms / 1000, [])
    ∧ s.raceDeadlineMs = s.time_limit_ms
    ∧ (s.time_limit_ms < 1000 →
        s.spawnArgs.get? 4 = some (String.mk (natChars 0))) := by
  refine ⟨rfl, ?_, rfl, fun h => ?_⟩
  · have := parseNatNum_natChars (s.time_limit_ms / 1000) [] rfl
    rwa [List.append_nil] at this
  · have hz : s.time_limit_ms / 1000 = 0 := Nat.div_eq_of_lt h
    rw [show s.spawnArgs.get? 4
        = some (String.mk (natChars (s.time_limit_ms / 1000))) from rfl, hz]

theorem c9_cpu_seconds_truncated_witness :
    (SafeJaq.spawnArgs ⟨500, 77⟩).get? 4 = some (String.mk (natChars 0))
    ∧ SafeJaq.raceDeadlineMs ⟨500, 77⟩ = 500 :=
  ⟨(c9_cpu_seconds_truncated ⟨500, 77⟩).2.2.2 (by norm_num),
    (c9_cpu_seconds_truncated ⟨500, 77⟩).2.2.1⟩
